import Mathlib

/-!
# Verification of the salah prayer-times engine

Shallow embedding of the core of the salah repository (src/math, src/datetime,
src/astro, src/times).  Rust f64 values are modelled as exact numbers: the
calendar/clock layer (src/math normalize, src/datetime hour2time and time2hour,
src/astro julian) works over the rationals so that every definition is
executable, and the astronomical layer (trigonometric solar model and the
PrayerTimes queries) works over the reals.  A NaN produced by an out-of-domain
acos, and its propagation through hour2time, is tracked explicitly with an
Option carrier in the query layer.  Rust numeric primitives are modelled
one-to-one: trunc is truncation toward zero, round is rounding half away from
zero, and an `as u32` cast truncates toward zero and saturates at 0 and at
u32::MAX (with NaN mapped to 0).
-/

namespace Salah

/-- f64::trunc at an exact rational: truncation toward zero. -/
def ftruncQ (q : ℚ) : ℚ := if 0 ≤ q then (⌊q⌋ : ℚ) else (⌈q⌉ : ℚ)

/-- f64::round at an exact rational: rounding half away from zero. -/
def froundQ (q : ℚ) : ℚ := if 0 ≤ q then (⌊q + 1/2⌋ : ℚ) else (⌈q - 1/2⌉ : ℚ)

/-- Rust float `as u32` cast: truncation toward zero, saturating at 0 and
u32::MAX.  (The NaN-to-0 case of the cast lives in the Option layer below.) -/
def castU32Q (q : ℚ) : ℕ := if q < 0 then 0 else min 4294967295 ⌊q⌋.toNat

/-- src/math/mod.rs normalize: Rust float remainder (which truncates toward
zero) followed by a conditional shift of negative remainders into [0, m). -/
def normalize (value m : ℚ) : ℚ :=
  let normalized := value - m * ftruncQ (value / m)
  if normalized < 0 then normalized + m else normalized

/-- A chrono NaiveTime as produced by from_hms_opt: hour, minute, second. -/
structure Time where
  hour : ℕ
  minute : ℕ
  second : ℕ
deriving DecidableEq, Repr

/-- chrono NaiveTime::from_hms_opt: Some exactly when h ≤ 23, m ≤ 59, s ≤ 59. -/
def fromHmsOpt (h m s : ℕ) : Option Time :=
  if h ≤ 23 ∧ m ≤ 59 ∧ s ≤ 59 then some ⟨h, m, s⟩ else none

/-- The successive fractional extraction at the top of hour2time: the hour
h = hour.trunc() as u32, the minute value d = (hour - hour.trunc()) * 60 cast
to u32, and the rounded second ((d - d.trunc()) * 60).round() as u32. -/
def hourMinSec (hour : ℚ) : ℕ × ℕ × ℕ :=
  let d := (hour - ftruncQ hour) * 60
  (castU32Q (ftruncQ hour), castU32Q d, castU32Q (froundQ ((d - ftruncQ d) * 60)))

/-- The integer tail of hour2time, mirroring the Rust statement sequence on
the extracted (h, m, s): wrap an hour of 24 to 0; subtract 60 from seconds
≥ 60 carrying one minute; subtract 60 from minutes ≥ 60 (without touching the
hour); apply the round_seconds policy; then build the NaiveTime, an error
(none) when the components are out of range. -/
def hour2timeCore (h0 m0 s0 : ℕ) (roundSeconds : Bool) : Option Time :=
  let h1 := if h0 = 24 then 0 else h0
  let m1 := if 60 ≤ s0 then m0 + 1 else m0
  let s1 := if 60 ≤ s0 then s0 - 60 else s0
  let m2 := if 60 ≤ m1 then m1 - 60 else m1
  let m3 := if roundSeconds then (if 30 ≤ s1 then m2 + 1 else m2) else m2
  let s3 := if roundSeconds then 0 else s1
  fromHmsOpt h1 m3 s3

/-- src/datetime/mod.rs hour2time over exact rationals: fractional extraction
followed by the carry/wrap/rounding sequence of the Rust source. -/
def hour2time (hour : ℚ) (roundSeconds : Bool) : Option Time :=
  hour2timeCore (hourMinSec hour).1 (hourMinSec hour).2.1 (hourMinSec hour).2.2 roundSeconds

/-- src/datetime/mod.rs time2hour: hour + (minute + second/60)/60. -/
def time2hour (t : Time) : ℚ :=
  (t.hour : ℚ) + ((t.minute : ℚ) + (t.second : ℚ) / 60) / 60

/-- The hour-to-time conversion exactly as the claim states it: successive
fractional extraction, then seconds ≥ 60 carry into minutes, minutes ≥ 60
carry into hours, and an hour component of 24 wraps to 0. -/
def hour2timeCarry (hour : ℚ) (roundSeconds : Bool) : Option Time :=
  let h0 := (hourMinSec hour).1
  let m0 := (hourMinSec hour).2.1
  let s0 := (hourMinSec hour).2.2
  let ms := if 60 ≤ s0 then (m0 + 1, s0 - 60) else (m0, s0)
  let hm := if 60 ≤ ms.1 then (h0 + 1, ms.1 - 60) else (h0, ms.1)
  let h2 := if hm.1 = 24 then 0 else hm.1
  let m3 := if roundSeconds then (if 30 ≤ ms.2 then hm.2 + 1 else hm.2) else hm.2
  let s3 := if roundSeconds then 0 else ms.2
  fromHmsOpt h2 m3 s3

/-- The amended description of hour2time: successive fractional extraction;
seconds that reach 60 carry into minutes; an hour component of 24 wraps to 0
(before the carries); minutes that reach 60 wrap to m - 60 without
incrementing the hour; the rounding policy is applied last, and a minute
count of 60 produced by rounding is left to fail the range check. -/
def hour2timeAmended (hour : ℚ) (roundSeconds : Bool) : Option Time :=
  let h0 := (hourMinSec hour).1
  let m0 := (hourMinSec hour).2.1
  let s0 := (hourMinSec hour).2.2
  let wrapHour := fun (h : ℕ) => if h = 24 then 0 else h
  let carrySec := fun (m s : ℕ) => if 60 ≤ s then (m + 1, s - 60) else (m, s)
  let wrapMin := fun (m : ℕ) => if 60 ≤ m then m - 60 else m
  let ms := carrySec m0 s0
  let rounded := if roundSeconds then (if 30 ≤ ms.2 then wrapMin ms.1 + 1 else wrapMin ms.1, 0)
    else (wrapMin ms.1, ms.2)
  fromHmsOpt (wrapHour h0) rounded.1 rounded.2

/-- Proleptic Gregorian calendar date as carried by a chrono NaiveDate. -/
structure Date where
  year : ℤ
  month : ℕ
  day : ℕ
deriving DecidableEq, Repr

/-- Gregorian leap-year rule (chrono NaiveDate calendar, external to the repo). -/
def isLeap (y : ℤ) : Bool := (y % 4 = 0 && y % 100 ≠ 0) || y % 400 = 0

/-- Length of a Gregorian month (chrono NaiveDate calendar). -/
def daysInMonth (y : ℤ) (m : ℕ) : ℕ :=
  if m = 2 then (if isLeap y then 29 else 28)
  else if m = 4 ∨ m = 6 ∨ m = 9 ∨ m = 11 then 30 else 31

/-- Validity of a Date: exactly the dates chrono NaiveDate can represent
month/day-wise (year bounds are irrelevant to the claims proved here). -/
def Date.Valid (dt : Date) : Prop :=
  1 ≤ dt.month ∧ dt.month ≤ 12 ∧ 1 ≤ dt.day ∧ dt.day ≤ daysInMonth dt.year dt.month

instance (dt : Date) : Decidable dt.Valid := by
  unfold Date.Valid
  infer_instance

/-- Calendar order on dates (lexicographic year, month, day). -/
def Date.before (a b : Date) : Prop :=
  a.year < b.year ∨
    (a.year = b.year ∧ (a.month < b.month ∨ (a.month = b.month ∧ a.day < b.day)))

instance (a b : Date) : Decidable (a.before b) := by
  unfold Date.before
  infer_instance

/-- src/astro/mod.rs julian over exact rationals: the Jan/Feb year shift,
the Gregorian correction b = 2 - a + floor(a/4) with a = floor(y/100), and
floor(365.25 (y+4716)) + floor(30.6001 (m+1)) + d + b - 1524.5. -/
def julian (dt : Date) : ℚ :=
  let y0 : ℚ := dt.year
  let m0 : ℚ := dt.month
  let d : ℚ := dt.day
  let y := if m0 = 1 ∨ m0 = 2 then y0 - 1 else y0
  let m := if m0 = 1 ∨ m0 = 2 then m0 + 12 else m0
  let a : ℚ := (⌊y / 100⌋ : ℤ)
  let b : ℚ := 2 - a + ((⌊a / 4⌋ : ℤ) : ℚ)
  ((⌊365.25 * (y + 4716)⌋ : ℤ) : ℚ) + ((⌊30.6001 * (m + 1)⌋ : ℤ) : ℚ) + d + b - 1524.5

/-- The Jan/Feb-shifted year used inside julian. -/
def jyear (dt : Date) : ℤ := if dt.month = 1 ∨ dt.month = 2 then dt.year - 1 else dt.year

/-- The Jan/Feb-shifted month used inside julian (3..14 for valid dates). -/
def jmonth (dt : Date) : ℤ := if dt.month = 1 ∨ dt.month = 2 then dt.month + 12 else dt.month

/-- julian with its floors expressed as integer euclidean divisions: the value
of julian is jint - 1524.5. -/
def jint (Y M d : ℤ) : ℤ :=
  365 * (Y + 4716) + (Y + 4716) / 4 + 306001 * (M + 1) / 10000 + d + 2 - Y / 100 + Y / 100 / 4

/-- The Gregorian leap rule as an arithmetic proposition. -/
def leapP (y : ℤ) : Prop := (y % 4 = 0 ∧ y % 100 ≠ 0) ∨ y % 400 = 0

instance (y : ℤ) : Decidable (leapP y) := by
  unfold leapP
  infer_instance

/-- Length of a shifted month M in 3..13 (these are leap-independent;
M = 14, shifted February, is handled separately). -/
def monthLenShifted (M : ℤ) : ℤ := if M = 4 ∨ M = 6 ∨ M = 9 ∨ M = 11 then 30 else 31

/-!
## The astronomical layer (src/math deg/time modules, src/astro, src/times)

f64 values are modelled as exact reals.  NaN (and the infinities that a zero
denominator feeds into acos, which turns them into NaN) are tracked with an
Option carrier in the query pipeline below.
-/

noncomputable section

/-- src/math/mod.rs rad2deg. -/
def rad2deg (rad : ℝ) : ℝ := rad * (180 / Real.pi)

/-- src/math/mod.rs deg2rad. -/
def deg2rad (degv : ℝ) : ℝ := degv * (Real.pi / 180)

/-- f64::trunc over ℝ: truncation toward zero. -/
def ftruncR (x : ℝ) : ℝ := if 0 ≤ x then (⌊x⌋ : ℝ) else (⌈x⌉ : ℝ)

/-- f64::round over ℝ: rounding half away from zero. -/
def froundR (x : ℝ) : ℝ := if 0 ≤ x then (⌊x + 1/2⌋ : ℝ) else (⌈x - 1/2⌉ : ℝ)

/-- Rust float as u32 cast over ℝ (truncating, saturating). -/
def castU32R (x : ℝ) : ℕ := if x < 0 then 0 else min 4294967295 ⌊x⌋.toNat

/-- src/math/mod.rs normalize at the ℝ carrier (same function as the ℚ
version above; the astronomical layer feeds it transcendental values). -/
def normalizeR (value m : ℝ) : ℝ :=
  let normalized := value - m * ftruncR (value / m)
  if normalized < 0 then normalized + m else normalized

namespace deg

/-- src/math deg::normalize_angle. -/
def normalize_angle (angle : ℝ) : ℝ := normalizeR angle 360

/-- src/math deg::sin. -/
def sin (angle : ℝ) : ℝ := Real.sin (deg2rad angle)

/-- src/math deg::cos. -/
def cos (angle : ℝ) : ℝ := Real.cos (deg2rad angle)

/-- src/math deg::tan. -/
def tan (angle : ℝ) : ℝ := Real.tan (deg2rad angle)

/-- src/math deg::atan2, via the complex argument (range (-pi, pi], with
atan2(0,0) = 0, matching f64::atan2 on finite inputs). -/
def atan2 (y x : ℝ) : ℝ := rad2deg (Complex.arg ⟨x, y⟩)

/-- src/math deg::asin. -/
def asin (v : ℝ) : ℝ := rad2deg (Real.arcsin v)

/-- src/math deg::acos.  Real.arccos clamps out-of-domain arguments instead
of producing NaN; the query layer below therefore guards the domain
explicitly and never relies on the clamped values. -/
def acos (v : ℝ) : ℝ := rad2deg (Real.arccos v)

/-- src/math deg::acot = atan(1/v). -/
def acot (v : ℝ) : ℝ := rad2deg (Real.arctan (1 / v))

end deg

namespace time

/-- src/math time::normalize_hour. -/
def normalize_hour (hour : ℝ) : ℝ := normalizeR hour 24

end time

/-- Days since J2000.0, the let n inside sun_coords. -/
def sunN (jd : ℝ) : ℝ := jd - 2451545

/-- Mean anomaly g inside sun_coords. -/
def sunG (jd : ℝ) : ℝ := deg.normalize_angle (357.529 + 0.98560028 * sunN jd)

/-- Mean longitude q inside sun_coords. -/
def sunQ (jd : ℝ) : ℝ := deg.normalize_angle (280.459 + 0.98564736 * sunN jd)

/-- Apparent ecliptic longitude l inside sun_coords. -/
def sunL (jd : ℝ) : ℝ :=
  deg.normalize_angle (sunQ jd + 1.915 * deg.sin (sunG jd) + 0.020 * deg.sin (2 * sunG jd))

/-- Mean obliquity e inside sun_coords. -/
def sunE (jd : ℝ) : ℝ := 23.439 - 0.00000036 * sunN jd

/-- Normalized right ascension ra inside sun_coords. -/
def sunRa (jd : ℝ) : ℝ :=
  time.normalize_hour (deg.atan2 (deg.cos (sunE jd) * deg.sin (sunL jd)) (deg.cos (sunL jd)) / 15)

/-- Equation of time, first component of sun_coords. -/
def sunEqt (jd : ℝ) : ℝ := sunQ jd / 15 - sunRa jd

/-- The asin argument sin(e) * sin(l) inside the declination. -/
def sunU (jd : ℝ) : ℝ := deg.sin (sunE jd) * deg.sin (sunL jd)

/-- Solar declination, second component of sun_coords. -/
def sunDecl (jd : ℝ) : ℝ := deg.asin (sunU jd)

/-- src/astro/mod.rs sun_coords: (equation of time, declination). -/
def sun_coords (jd : ℝ) : ℝ × ℝ := (sunEqt jd, sunDecl jd)

/-- src/astro/mod.rs zenith: 12 + tz - lng/15 - eqt.  Note: not normalized
into [0, 24). -/
def zenith (jd lng tz : ℝ) : ℝ := 12 + tz - lng / 15 - (sun_coords jd).1

inductive HorizonDirection
  | Sunrise
  | Sunset

/-- The acos argument inside horizon_hour_angle. -/
def horizonArg (angle jd lat : ℝ) : ℝ :=
  (-deg.sin angle - deg.sin lat * deg.sin (sunDecl jd)) /
    (deg.cos lat * deg.cos (sunDecl jd))

/-- The denominator of that argument (zero iff the f64 division produces a
non-finite value). -/
def horizonDenom (jd lat : ℝ) : ℝ := deg.cos lat * deg.cos (sunDecl jd)

/-- src/astro/mod.rs horizon_hour_angle: zenith minus or plus (1/15) acos(arg). -/
def horizon_hour_angle (angle jd zen lat : ℝ) : HorizonDirection → ℝ
  | .Sunrise => zen - 1 / 15 * deg.acos (horizonArg angle jd lat)
  | .Sunset => zen + 1 / 15 * deg.acos (horizonArg angle jd lat)

/-- The acos argument inside shadow_length_hour. -/
def shadowArg (length jd lat : ℝ) : ℝ :=
  (deg.sin (deg.acot (length + deg.tan (lat - sunDecl jd))) -
      deg.sin lat * deg.sin (sunDecl jd)) /
    (deg.cos lat * deg.cos (sunDecl jd))

/-- src/astro/mod.rs shadow_length_hour: zenith + (1/15) acos(arg). -/
def shadow_length_hour (length jd zen lat : ℝ) : ℝ :=
  zen + 1 / 15 * deg.acos (shadowArg length jd lat)

/-- src/times/types.rs School. -/
inductive School
  | Hanafi
  | Shafi

/-- src/times/types.rs School::shadow_length. -/
def School.shadow_length : School → ℝ
  | .Hanafi => 2
  | .Shafi => 1

/-- src/times/types.rs Authority. -/
inductive Authority
  | MWL
  | ISNA
  | Egypt
  | Makkah
  | Karachi
  | Tehran
  | Jafari

/-- src/times/types.rs IshaParam: angle in degrees or a std Duration
(modelled by its whole-second count). -/
inductive IshaParam
  | Angle (angle : ℝ)
  | Duration (secs : ℕ)

/-- Whether an IshaParam is the angle-based night criterion. -/
def IshaParam.isAngle : IshaParam → Bool
  | .Angle _ => true
  | .Duration _ => false

/-- src/times/types.rs Authority::fajr_angle. -/
def Authority.fajr_angle : Authority → ℝ
  | .MWL => 18
  | .ISNA => 15
  | .Egypt => 19.5
  | .Makkah => 18.5
  | .Karachi => 18
  | .Tehran => 17.7
  | .Jafari => 16

/-- src/times/types.rs Authority::isha_param (Makkah: Duration::from_secs
(90 * 3600)). -/
def Authority.isha_param : Authority → IshaParam
  | .MWL => .Angle 17
  | .ISNA => .Angle 15
  | .Egypt => .Angle 17.5
  | .Makkah => .Duration (90 * 3600)
  | .Karachi => .Angle 18
  | .Tehran => .Angle 14
  | .Jafari => .Angle 14

/-- src/times/mod.rs PrayerTimes: the configuration aggregate.  The chrono
timezone and date fields only feed the cached tz_offset and jd derived
fields, which are what every query reads; they are therefore carried
directly. -/
structure PrayerTimes where
  lat : ℝ
  lng : ℝ
  tz_offset : ℝ
  jd : ℝ
  auth : Authority
  school : School

/-- src/times/mod.rs PrayerTimes::with_authority. -/
def PrayerTimes.with_authority (p : PrayerTimes) (a : Authority) : PrayerTimes :=
  { p with auth := a }

/-- src/times/mod.rs PrayerTimes::with_school. -/
def PrayerTimes.with_school (p : PrayerTimes) (s : School) : PrayerTimes :=
  { p with school := s }

/-- src/times/mod.rs private method PrayerTimes::zenith. -/
def PrayerTimes.zenithHour (p : PrayerTimes) : ℝ := zenith p.jd p.lng p.tz_offset

/-- The fractional hour computed inside PrayerTimes::fajr (the value handed
to hour2time). -/
def PrayerTimes.fajrHour (p : PrayerTimes) : ℝ :=
  horizon_hour_angle p.auth.fajr_angle p.jd p.zenithHour p.lat .Sunrise

/-- The fractional hour computed inside PrayerTimes::sunrise. -/
def PrayerTimes.sunriseHour (p : PrayerTimes) : ℝ :=
  horizon_hour_angle 0.833 p.jd p.zenithHour p.lat .Sunrise

/-- The fractional hour computed inside PrayerTimes::dhuhr. -/
def PrayerTimes.dhuhrHour (p : PrayerTimes) : ℝ := p.zenithHour

/-- The fractional hour computed inside PrayerTimes::asr. -/
def PrayerTimes.asrHour (p : PrayerTimes) : ℝ :=
  shadow_length_hour p.school.shadow_length p.jd p.zenithHour p.lat

/-- The fractional hour computed inside PrayerTimes::maghrib. -/
def PrayerTimes.maghribHour (p : PrayerTimes) : ℝ :=
  horizon_hour_angle 0.833 p.jd p.zenithHour p.lat .Sunset

/-- The fractional extraction of hour2time at the ℝ carrier. -/
def hourMinSecR (hour : ℝ) : ℕ × ℕ × ℕ :=
  let d := (hour - ftruncR hour) * 60
  (castU32R (ftruncR hour), castU32R d, castU32R (froundR ((d - ftruncR d) * 60)))

/-- src/datetime/mod.rs hour2time on an f64 that may be NaN (none).  On NaN
every saturating cast in the extraction yields 0 (NaN.trunc() is NaN and
NaN as u32 is 0), after which the integer tail runs unchanged; on a finite
hour the extraction runs at the ℝ carrier.  The result none models the
conversion error (anyhow out-of-range). -/
def hour2timeF : Option ℝ → Bool → Option Time
  | none, r => hour2timeCore 0 0 0 r
  | some x, r => hour2timeCore (hourMinSecR x).1 (hourMinSecR x).2.1 (hourMinSecR x).2.2 r

/-- horizon_hour_angle on f64, tracking non-finite values: a zero denominator
makes the division produce an infinity or NaN, and acos of any non-finite
value or of an argument outside [-1, 1] is NaN, which then contaminates
zenith minus or plus t_a; otherwise the result is the finite real value. -/
def horizon_hour_angle_f (angle jd zen lat : ℝ) (dir : HorizonDirection) : Option ℝ :=
  if horizonDenom jd lat = 0 then none
  else if -1 ≤ horizonArg angle jd lat ∧ horizonArg angle jd lat ≤ 1 then
    some (horizon_hour_angle angle jd zen lat dir)
  else none

/-- src/times/mod.rs PrayerTimes::fajr.  The Rust method returns a bare
NaiveTime and unwraps the hour2time Result with expect, so the value none
here models a process-aborting panic, not a returned error. -/
def PrayerTimes.fajr (p : PrayerTimes) : Option Time :=
  hour2timeF (horizon_hour_angle_f p.auth.fajr_angle p.jd p.zenithHour p.lat .Sunrise) true

/-- src/times/mod.rs PrayerTimes::dhuhr (zenith is always finite for finite
configuration fields).  none models the expect panic, as in fajr. -/
def PrayerTimes.dhuhr (p : PrayerTimes) : Option Time :=
  hour2timeF (some p.zenithHour) true

/-- The far-longitude configuration: latitude 0, longitude -3600 (the core
performs no range validation), tz offset 0, jd of 2000-01-01. -/
def cfgFarLng : PrayerTimes := ⟨0, -3600, 0, 2451544.5, .ISNA, .Hanafi⟩

/-- The equatorial reference configuration on 2000-01-01. -/
def cfgEquator : PrayerTimes := ⟨0, 0, 0, 2451544.5, .ISNA, .Hanafi⟩

/-- The nonsensical-but-unvalidated latitude 180 configuration on
2000-01-01 with ISNA and Hanafi. -/
def cfgLat180 : PrayerTimes := ⟨180, 0, 0, 2451544.5, .ISNA, .Hanafi⟩

/-- The near-polar configuration: latitude 89.9 on 2000-01-01 with ISNA. -/
def cfgPolar : PrayerTimes := ⟨89.9, 0, 0, 2451544.5, .ISNA, .Hanafi⟩

end


/-! ## Helper lemmas for the clock layer -/

theorem castU32Q_of_lt_one {q : ℚ} (h : q < 1) : castU32Q q = 0 := by
  unfold castU32Q
  split_ifs with h1
  · rfl
  · have hfl : ⌊q⌋ < 1 := Int.floor_lt.2 (by exact_mod_cast h)
    have : ⌊q⌋.toNat = 0 := Int.toNat_of_nonpos (by omega)
    simp [this]

theorem froundQ_nonpos {q : ℚ} (h : q ≤ 0) : froundQ q ≤ 0 := by
  unfold froundQ
  split_ifs with h1
  · have hq : q = 0 := le_antisymm h h1
    subst hq
    norm_num
  · have hle : ⌈q - 1/2⌉ ≤ ⌈(-1/2 : ℚ)⌉ := Int.ceil_le_ceil (by linarith)
    have : ⌈(-1/2 : ℚ)⌉ = 0 := by norm_num
    exact_mod_cast hle.trans_eq this

theorem ftruncQ_le_self_of_neg {q : ℚ} (h : ¬0 ≤ q) : q - ftruncQ q ≤ 0 := by
  unfold ftruncQ
  rw [if_neg h]
  have := Int.le_ceil q
  linarith

theorem hourMinSec_neg {q : ℚ} (hq : q < 0) : hourMinSec q = (0, 0, 0) := by
  have hnot : ¬0 ≤ q := not_le.2 hq
  have hd : (q - ftruncQ q) * 60 ≤ 0 := by
    have := ftruncQ_le_self_of_neg hnot
    nlinarith
  have hdsub : ((q - ftruncQ q) * 60 - ftruncQ ((q - ftruncQ q) * 60)) * 60 ≤ 0 := by
    rcases le_or_lt 0 ((q - ftruncQ q) * 60) with h0 | h0
    · have he : (q - ftruncQ q) * 60 = 0 := le_antisymm hd h0
      rw [he]
      unfold ftruncQ
      norm_num
    · have := ftruncQ_le_self_of_neg (not_le.2 h0)
      nlinarith
  have h1 : castU32Q (ftruncQ q) = 0 := by
    apply castU32Q_of_lt_one
    unfold ftruncQ
    rw [if_neg hnot]
    have : ⌈q⌉ ≤ 0 := Int.ceil_le.2 (by exact_mod_cast hq.le)
    have : ((⌈q⌉ : ℤ) : ℚ) ≤ 0 := by exact_mod_cast this
    linarith
  have h2 : castU32Q ((q - ftruncQ q) * 60) = 0 := castU32Q_of_lt_one (by linarith)
  have h3 : castU32Q (froundQ (((q - ftruncQ q) * 60 - ftruncQ ((q - ftruncQ q) * 60)) * 60)) = 0 :=
    castU32Q_of_lt_one ((froundQ_nonpos hdsub).trans_lt one_pos)
  unfold hourMinSec
  simp only [h1, h2, h3]

/-! ## C10 -/

/-- C10: for every finite negative fractional hour, hour2time returns Ok with
the clock time 00:00:00 (all three saturating casts produce 0), never an
error. -/
theorem hour2time_neg (q : ℚ) (hq : q < 0) (r : Bool) :
    hour2time q r = some ⟨0, 0, 0⟩ := by
  rw [hour2time, hourMinSec_neg hq]
  cases r <;> rfl

/-- Witness for C10 at hour -5.5 with rounding on. -/
theorem hour2time_neg_witness : hour2time (-11/2) true = some ⟨0, 0, 0⟩ :=
  hour2time_neg (-11/2) (by norm_num) true

/-! ## C1 -/

/-- C1 counterexample: at hour 11999/12000 (59 minutes 59.7 seconds) with
rounding off, the raw seconds round to 60 and carry into the minutes, the
minutes reach 60 and are wrapped to 0 WITHOUT carrying into the hour, so the
code returns 00:00:00 while the carry semantics stated by the claim would
return 01:00:00. -/
theorem hour2time_carry_counterexample :
    hour2time (11999/12000) false = some ⟨0, 0, 0⟩ ∧
    hour2timeCarry (11999/12000) false = some ⟨1, 0, 0⟩ := by
  have h : hourMinSec (11999/12000) = (0, 59, 60) := by
    norm_num [hourMinSec, castU32Q, ftruncQ, froundQ, min_def]
    omega
  rw [hour2time, hour2timeCarry, h]
  exact ⟨by decide, by decide⟩

/-- C1 amended: hour2time splits a fractional hour by successive fractional
extraction; seconds that reach 60 carry into minutes; an hour component of 24
wraps to 0; but minutes that reach 60 wrap to m - 60 without incrementing the
hour (and a minute count of 60 produced by the rounding step fails the range
check instead of carrying). -/
theorem hour2time_amended_eq (q : ℚ) (r : Bool) : hour2time q r = hour2timeAmended q r := by
  rw [hour2time, hour2timeAmended, hour2timeCore]
  cases r <;> (simp only [Bool.false_eq_true, if_true, if_false, reduceIte]) <;>
    split_ifs <;> simp_all

/-! ## C7 -/

/-- C7: normalize maps any finite value into [0, m) for positive modulus m and
agrees with mathematical modulo x - m * floor (x/m); concretely
normalize (-80) 360 = 280, normalize 750.3 360 = 30.3, normalize 25 24 = 1. -/
theorem ftruncQ_eq_floor {q : ℚ} (h : 0 ≤ q) : ftruncQ q = (⌊q⌋ : ℚ) := if_pos h

theorem ftruncQ_eq_ceil {q : ℚ} (h : q < 0) : ftruncQ q = (⌈q⌉ : ℚ) := if_neg (not_le.2 h)

theorem normalize_spec :
    (∀ x m : ℚ, 0 < m →
      0 ≤ normalize x m ∧ normalize x m < m ∧ normalize x m = x - m * ⌊x / m⌋) ∧
    normalize (-80) 360 = 280 ∧ normalize (750.3) 360 = 30.3 ∧ normalize 25 24 = 1 := by
  refine ⟨fun x m hm => ?_,
    by rw [normalize, ftruncQ_eq_ceil (by norm_num : (-80 : ℚ)/360 < 0),
        show (⌈(-80 : ℚ)/360⌉ : ℤ) = 0 from by norm_num]; norm_num,
    by rw [normalize, ftruncQ_eq_floor (by norm_num : (0 : ℚ) ≤ 750.3/360),
        show (⌊(750.3 : ℚ)/360⌋ : ℤ) = 2 from by norm_num]; norm_num,
    by rw [normalize, ftruncQ_eq_floor (by norm_num : (0 : ℚ) ≤ 25/24),
        show (⌊(25 : ℚ)/24⌋ : ℤ) = 1 from by norm_num]; norm_num⟩
  have hxm : m * (x / m) = x := by field_simp
  have hf0 : m * (⌊x / m⌋ : ℚ) ≤ x := by nlinarith [Int.floor_le (x / m)]
  have hf1 : x < m * (⌊x / m⌋ : ℚ) + m := by nlinarith [Int.lt_floor_add_one (x / m)]
  rcases le_or_lt 0 (x / m) with hp | hp
  · rw [normalize, ftruncQ_eq_floor hp, if_neg (by linarith)]
    exact ⟨by linarith, by linarith, rfl⟩
  · rw [normalize, ftruncQ_eq_ceil hp]
    have hcle : x ≤ m * (⌈x / m⌉ : ℚ) := by nlinarith [Int.le_ceil (x / m)]
    rcases lt_or_eq_of_le hcle with hclt | hceq
    · -- x/m is not an integer: the remainder is negative and gets shifted by m
      have hceil : (⌈x / m⌉ : ℤ) = ⌊x / m⌋ + 1 := by
        have h1 : ⌈x / m⌉ ≤ ⌊x / m⌋ + 1 := Int.ceil_le_floor_add_one _
        have h2 : ⌊x / m⌋ < ⌈x / m⌉ := by
          have hql : (⌊x / m⌋ : ℚ) < ⌈x / m⌉ := by nlinarith
          exact_mod_cast hql
        omega
      have hre : x - m * (⌈x / m⌉ : ℚ) + m = x - m * ⌊x / m⌋ := by
        rw [hceil]
        push_cast
        ring
      rw [if_pos (by linarith)]
      exact ⟨by linarith, by linarith, hre⟩
    · -- x/m is an integer: remainder is exactly 0, no shift
      have hxm2 : x / m = ((⌈x / m⌉ : ℤ) : ℚ) := by
        rw [div_eq_iff (ne_of_gt hm)]
        linarith
      have hfc : (⌊x / m⌋ : ℤ) = ⌈x / m⌉ := by
        rw [hxm2]
        simp
      rw [if_neg (by linarith)]
      refine ⟨by linarith, by linarith, ?_⟩
      rw [hfc]

/-- Witness for C7 at x = -80, m = 360. -/
theorem normalize_spec_witness :
    0 ≤ normalize (-80) 360 ∧ normalize (-80) 360 < 360 ∧
      normalize (-80) 360 = -80 - 360 * ⌊(-80 : ℚ) / 360⌋ :=
  normalize_spec.1 (-80) 360 (by norm_num)

/-! ## C6 -/

theorem castU32Q_intCast {z : ℤ} (h0 : 0 ≤ z) (h1 : z ≤ 59) : castU32Q (z : ℚ) = z.toNat := by
  unfold castU32Q
  rw [if_neg (by exact_mod_cast not_lt.2 h0), Int.floor_intCast]
  omega

/-- C6: time2hour inverts hour2time (with rounding on) on every fractional
hour in [0, 24) whose seconds are exactly zero (60 * hour is an integer), and
concretely hour 17.4 becomes the clock time 17:24:00 and back 17.4. -/
theorem hour2time_roundtrip :
    (∀ q : ℚ, 0 ≤ q → q < 24 → (∃ k : ℤ, (k : ℚ) = 60 * q) →
      (hour2time q true).map time2hour = some q) ∧
    hour2time (87/5) true = some ⟨17, 24, 0⟩ ∧ time2hour ⟨17, 24, 0⟩ = 87/5 := by
  constructor
  · rintro q hq0 hq24 ⟨k, hk⟩
    obtain ⟨H, hH⟩ : ∃ H : ℤ, H = ⌊q⌋ := ⟨_, rfl⟩
    have hHle : (H : ℚ) ≤ q := by
      rw [hH]
      exact Int.floor_le q
    have hHlt : q < (H : ℚ) + 1 := by
      rw [hH]
      exact_mod_cast Int.lt_floor_add_one q
    have hH0 : 0 ≤ H := by
      rw [hH]
      exact Int.floor_nonneg.2 hq0
    have hH23 : H ≤ 23 := by
      have : H < 24 := by
        rw [hH]
        exact Int.floor_lt.2 (by exact_mod_cast hq24)
      omega
    obtain ⟨M, hM⟩ : ∃ M : ℤ, M = k - 60 * H := ⟨_, rfl⟩
    have hdq : (q - (H : ℚ)) * 60 = (M : ℚ) := by
      rw [hM]
      push_cast
      linarith [hk]
    have hMQ0 : (0 : ℚ) ≤ (M : ℚ) := by
      rw [← hdq]
      nlinarith
    have hMQ59 : (M : ℚ) < 60 := by
      rw [← hdq]
      nlinarith
    have hM0 : 0 ≤ M := by exact_mod_cast hMQ0
    have hM59 : M ≤ 59 := by
      have : M < 60 := by exact_mod_cast hMQ59
      omega
    have hfr : froundQ 0 = 0 := by
      unfold froundQ
      norm_num
    have hc0 : castU32Q 0 = 0 := by
      unfold castU32Q
      norm_num
    have hms : hourMinSec q = (H.toNat, M.toNat, 0) := by
      simp only [hourMinSec]
      rw [ftruncQ_eq_floor hq0, ← hH, hdq, ftruncQ_eq_floor hMQ0, Int.floor_intCast,
        sub_self, zero_mul, hfr, hc0, castU32Q_intCast hH0 (by omega),
        castU32Q_intCast hM0 hM59]
    rw [hour2time, hms]
    have h23 : H.toNat ≤ 23 := by omega
    have m59 : M.toNat ≤ 59 := by omega
    have hcore : hour2timeCore H.toNat M.toNat 0 true = some ⟨H.toNat, M.toNat, 0⟩ := by
      simp only [hour2timeCore, fromHmsOpt, reduceIte]
      split_ifs <;> first | rfl | omega
    rw [hcore]
    show some (time2hour ⟨H.toNat, M.toNat, 0⟩) = some q
    congr 1
    rw [time2hour]
    have hq : q = (H : ℚ) + (M : ℚ) / 60 := by
      have hMe : (M : ℚ) = 60 * q - 60 * (H : ℚ) := by linarith [hdq]
      rw [hMe]
      ring
    rw [hq, show ((H.toNat : ℕ) : ℚ) = (H : ℚ) by exact_mod_cast Int.toNat_of_nonneg hH0,
      show ((M.toNat : ℕ) : ℚ) = (M : ℚ) by exact_mod_cast Int.toNat_of_nonneg hM0]
    push_cast
    ring
  · constructor
    · have h : hourMinSec (87/5) = (17, 24, 0) := by
        norm_num [hourMinSec, castU32Q, ftruncQ, froundQ, min_def]
        omega
      rw [hour2time, h]
      decide
    · norm_num [time2hour]

/-- Witness for C6 at hour 17.4 = 87/5. -/
theorem hour2time_roundtrip_witness :
    (hour2time (87/5) true).map time2hour = some (87/5) :=
  hour2time_roundtrip.1 (87/5) (by norm_num) (by norm_num) ⟨1044, by norm_num⟩

/-! ## C8: the Julian day number -/


theorem isLeap_iff {y : ℤ} : isLeap y = true ↔ leapP y := by
  simp [isLeap, leapP]

theorem jint_eq_A (Y M d : ℤ) :
    jint Y M d = 1461 * (Y + 4716) / 4 + 306001 * (M + 1) / 10000 + d + 2 - Y / 100 + Y / 100 / 4 := by
  unfold jint
  omega

theorem floor_365 (Y : ℤ) : ⌊(365.25 : ℚ) * ((Y : ℚ) + 4716)⌋ = 1461 * (Y + 4716) / 4 := by
  have h : (365.25 : ℚ) * ((Y : ℚ) + 4716) = ((1461 * (Y + 4716) : ℤ) : ℚ) / ((4 : ℕ) : ℚ) := by
    push_cast
    ring
  rw [h, Rat.floor_intCast_div_natCast]
  norm_num

theorem floor_306 (M : ℤ) : ⌊(30.6001 : ℚ) * ((M : ℚ) + 1)⌋ = 306001 * (M + 1) / 10000 := by
  have h : (30.6001 : ℚ) * ((M : ℚ) + 1) = ((306001 * (M + 1) : ℤ) : ℚ) / ((10000 : ℕ) : ℚ) := by
    push_cast
    ring
  rw [h, Rat.floor_intCast_div_natCast]
  norm_num

theorem floor_div100 (Y : ℤ) : ⌊(Y : ℚ) / 100⌋ = Y / 100 := by
  have h : (Y : ℚ) / 100 = ((Y : ℤ) : ℚ) / ((100 : ℕ) : ℚ) := by norm_num
  rw [h, Rat.floor_intCast_div_natCast]
  norm_num

theorem floor_div4 (a : ℤ) : ⌊((a : ℤ) : ℚ) / 4⌋ = a / 4 := by
  have h : (a : ℚ) / 4 = ((a : ℤ) : ℚ) / ((4 : ℕ) : ℚ) := by norm_num
  rw [h, Rat.floor_intCast_div_natCast]
  norm_num

theorem julian_eq_jint (dt : Date) :
    julian dt = ((jint (jyear dt) (jmonth dt) dt.day : ℤ) : ℚ) - 1524.5 := by
  have hcond : (((dt.month : ℚ) = 1 ∨ (dt.month : ℚ) = 2) ↔ (dt.month = 1 ∨ dt.month = 2)) := by
    constructor <;> (rintro (h | h) <;> [left; right] <;> exact_mod_cast h)
  by_cases hm : dt.month = 1 ∨ dt.month = 2
  · simp only [julian, jyear, jmonth, if_pos hm, if_pos (hcond.2 hm)]
    rw [jint_eq_A]
    rw [show (dt.year : ℚ) - 1 + 4716 = (((dt.year - 1 : ℤ) : ℚ)) + 4716 by push_cast; ring]
    rw [floor_365 (dt.year - 1)]
    rw [show (dt.month : ℚ) + 12 + 1 = (((dt.month : ℤ) + 12 : ℤ) : ℚ) + 1 by push_cast; ring]
    rw [floor_306 ((dt.month : ℤ) + 12)]
    rw [show ((dt.year : ℚ) - 1) = (((dt.year - 1 : ℤ)) : ℚ) by push_cast; ring]
    rw [floor_div100 (dt.year - 1), floor_div4 ((dt.year - 1) / 100)]
    push_cast
    ring
  · simp only [julian, jyear, jmonth, if_neg hm, if_neg (fun h => hm (hcond.1 h))]
    rw [jint_eq_A]
    rw [show (dt.year : ℚ) + 4716 = (((dt.year : ℤ) : ℚ)) + 4716 by norm_num]
    rw [floor_365 dt.year]
    rw [show (dt.month : ℚ) + 1 = (((dt.month : ℤ) : ℤ) : ℚ) + 1 by norm_num]
    rw [floor_306 (dt.month : ℤ)]
    rw [show ((dt.year : ℚ)) = (((dt.year : ℤ)) : ℚ) by norm_num]
    rw [floor_div100 dt.year, floor_div4 (dt.year / 100)]
    push_cast
    ring


theorem monthTerm_step {M : ℤ} (h3 : 3 ≤ M) (h13 : M ≤ 13) :
    306001 * (M + 1 + 1) / 10000 = 306001 * (M + 1) / 10000 + monthLenShifted M := by
  unfold monthLenShifted
  interval_cases M <;> simp

theorem monthTerm_mono {M1 M2 : ℤ} (h : M1 ≤ M2) :
    306001 * (M1 + 1) / 10000 ≤ 306001 * (M2 + 1) / 10000 :=
  Int.ediv_le_ediv (by norm_num) (by nlinarith)

theorem jint_month_lt {Y M1 M2 D1 D2 : ℤ} (h3 : 3 ≤ M1) (h12 : M1 < M2) (h14 : M2 ≤ 14)
    (hd1 : D1 ≤ monthLenShifted M1) (hd2 : 1 ≤ D2) :
    jint Y M1 D1 < jint Y M2 D2 := by
  have hstep := monthTerm_step h3 (by omega)
  have hmono := monthTerm_mono (show M1 + 1 ≤ M2 by omega)
  have hmono2 : 306001 * (M1 + 1 + 1) / 10000 ≤ 306001 * (M2 + 1) / 10000 := by
    have : M1 + 1 + 1 ≤ M2 + 1 := by omega
    exact Int.ediv_le_ediv (by norm_num) (by nlinarith)
  unfold jint
  omega

theorem jint_year_step (Y D1 : ℤ) (hd : D1 ≤ (if leapP (Y + 1) then 29 else 28)) :
    jint Y 14 D1 < jint (Y + 1) 3 1 := by
  have hG14 : (306001 * (14 + 1) : ℤ) / 10000 = 459 := by decide
  have hG3 : (306001 * (3 + 1) : ℤ) / 10000 = 122 := by decide
  unfold jint
  rw [hG14, hG3]
  unfold leapP at hd
  split_ifs at hd <;> omega

theorem jint_year_mono31 {Y1 Y2 : ℤ} (h : Y1 ≤ Y2) : jint Y1 3 1 ≤ jint Y2 3 1 := by
  have hs : ∀ Y : ℤ, jint Y 3 1 < jint (Y + 1) 3 1 := by
    intro Y
    unfold jint
    omega
  exact ((strictMono_int_of_lt_succ hs).le_iff_le).2 h

/-- Strict monotonicity of jint in the shifted lexicographic order, for day
counts bounded by the shifted month lengths. -/
theorem jint_lt_of_shifted_lt {Y1 Y2 M1 M2 D1 D2 : ℤ}
    (hM1a : 3 ≤ M1) (hM1b : M1 ≤ 14) (hM2a : 3 ≤ M2) (hM2b : M2 ≤ 14)
    (hD1b : D1 ≤ (if M1 = 14 then (if leapP (Y1 + 1) then 29 else 28) else monthLenShifted M1))
    (hD2a : 1 ≤ D2)
    (hlex : Y1 < Y2 ∨ (Y1 = Y2 ∧ (M1 < M2 ∨ (M1 = M2 ∧ D1 < D2)))) :
    jint Y1 M1 D1 < jint Y2 M2 D2 := by
  have hfeb : (1 : ℤ) ≤ (if leapP (Y1 + 1) then 29 else 28) := by split_ifs <;> omega
  rcases hlex with hY | ⟨rfl, hMD⟩
  · have step1 : jint Y1 M1 D1 ≤ jint Y1 14 (if leapP (Y1 + 1) then 29 else 28) := by
      rcases eq_or_lt_of_le hM1b with h14 | h14
      · subst h14
        rw [if_pos rfl] at hD1b
        unfold jint
        omega
      · rw [if_neg (by omega)] at hD1b
        exact (jint_month_lt hM1a h14 le_rfl hD1b hfeb).le
    have step2 : jint Y1 14 (if leapP (Y1 + 1) then 29 else 28) < jint (Y1 + 1) 3 1 :=
      jint_year_step Y1 _ le_rfl
    have step3 : jint (Y1 + 1) 3 1 ≤ jint Y2 3 1 := jint_year_mono31 (by omega)
    have step4 : jint Y2 3 1 ≤ jint Y2 M2 D2 := by
      rcases eq_or_lt_of_le hM2a with h3 | h3
      · rw [← h3]
        unfold jint
        omega
      · have : (1 : ℤ) ≤ monthLenShifted 3 := by decide
        exact (jint_month_lt le_rfl h3 hM2b (by decide) hD2a).le
    omega
  · rcases hMD with hM | ⟨rfl, hD⟩
    · have hne : M1 ≠ 14 := by omega
      rw [if_neg hne] at hD1b
      exact jint_month_lt hM1a hM hM2b hD1b hD2a
    · unfold jint
      omega

/-- The shifted coordinates are within 3..14 for a valid date. -/
theorem jmonth_range (dt : Date) (v : dt.Valid) : 3 ≤ jmonth dt ∧ jmonth dt ≤ 14 := by
  obtain ⟨h1, h2, _, _⟩ := v
  unfold jmonth
  split_ifs with h <;> omega

/-- The day bound of a valid date, phrased against the shifted month. -/
theorem day_bound_shifted (dt : Date) (v : dt.Valid) :
    (dt.day : ℤ) ≤
      (if jmonth dt = 14 then (if leapP (jyear dt + 1) then 29 else 28)
        else monthLenShifted (jmonth dt)) := by
  obtain ⟨h1, h2, h3, h4⟩ := v
  unfold daysInMonth at h4
  by_cases hm2 : dt.month = 2
  · have hj : jmonth dt = 14 := by
      unfold jmonth
      rw [if_pos (Or.inr hm2)]
      omega
    have hy : jyear dt + 1 = dt.year := by
      unfold jyear
      rw [if_pos (Or.inr hm2)]
      ring
    rw [hj, if_pos rfl, hy]
    rw [if_pos hm2] at h4
    by_cases hl : isLeap dt.year = true
    · rw [if_pos hl] at h4
      rw [if_pos (isLeap_iff.1 hl)]
      omega
    · rw [if_neg hl] at h4
      rw [if_neg (fun hp => hl (isLeap_iff.2 hp))]
      omega
  · rw [if_neg hm2] at h4
    by_cases hm1 : dt.month = 1
    · have hj : jmonth dt = 13 := by
        unfold jmonth
        rw [if_pos (Or.inl hm1)]
        omega
      rw [hj, if_neg (by norm_num), show monthLenShifted 13 = 31 from by decide]
      rw [hm1, if_neg (by omega)] at h4
      omega
    · have hor : ¬(dt.month = 1 ∨ dt.month = 2) := by tauto
      have hj : jmonth dt = (dt.month : ℤ) := by
        unfold jmonth
        rw [if_neg hor]
      rw [hj, if_neg (by omega : ¬(dt.month : ℤ) = 14)]
      unfold monthLenShifted
      split_ifs at h4 ⊢ <;> omega

/-- Calendar order implies shifted lexicographic order. -/
theorem before_shifted {d1 d2 : Date} (v1 : d1.Valid) (v2 : d2.Valid) (hb : d1.before d2) :
    jyear d1 < jyear d2 ∨
      (jyear d1 = jyear d2 ∧
        (jmonth d1 < jmonth d2 ∨ (jmonth d1 = jmonth d2 ∧ (d1.day : ℤ) < (d2.day : ℤ)))) := by
  obtain ⟨h1a, h1b, _, _⟩ := v1
  obtain ⟨h2a, h2b, _, _⟩ := v2
  unfold Date.before at hb
  unfold jyear jmonth
  split_ifs with ha hc <;> omega

/-- C8: the Julian date conversion is strictly monotone in the calendar date,
and julian (2000-01-01) is the reference value 2451544.5. -/
theorem julian_strictMono :
    (∀ d1 d2 : Date, d1.Valid → d2.Valid → d1.before d2 → julian d1 < julian d2) ∧
    julian ⟨2000, 1, 1⟩ = 2451544.5 := by
  constructor
  · intro d1 d2 v1 v2 hb
    rw [julian_eq_jint d1, julian_eq_jint d2]
    have hkey : jint (jyear d1) (jmonth d1) d1.day < jint (jyear d2) (jmonth d2) d2.day := by
      obtain ⟨hr1a, hr1b⟩ := jmonth_range d1 v1
      obtain ⟨hr2a, hr2b⟩ := jmonth_range d2 v2
      exact jint_lt_of_shifted_lt hr1a hr1b hr2a hr2b (day_bound_shifted d1 v1)
        (by exact_mod_cast v2.2.2.1) (before_shifted v1 v2 hb)
    have : ((jint (jyear d1) (jmonth d1) d1.day : ℤ) : ℚ) <
        ((jint (jyear d2) (jmonth d2) d2.day : ℤ) : ℚ) := by exact_mod_cast hkey
    linarith
  · rw [julian_eq_jint ⟨2000, 1, 1⟩]
    norm_num [jyear, jmonth, jint]

/-- Witness for C8 on the pair 2024-02-09 < 2024-03-01. -/
theorem julian_strictMono_witness :
    julian ⟨2024, 2, 9⟩ < julian ⟨2024, 3, 1⟩ :=
  julian_strictMono.1 ⟨2024, 2, 9⟩ ⟨2024, 3, 1⟩ (by decide) (by decide) (by decide)


/-! ## Helper lemmas for the astronomical layer -/

theorem ftruncR_eq_floor {x : ℝ} (h : 0 ≤ x) : ftruncR x = (⌊x⌋ : ℝ) := if_pos h

theorem ftruncR_eq_ceil {x : ℝ} (h : x < 0) : ftruncR x = (⌈x⌉ : ℝ) := if_neg (not_le.2 h)

theorem normalizeR_mem {x m : ℝ} (hm : 0 < m) :
    0 ≤ normalizeR x m ∧ normalizeR x m < m := by
  have hxm : m * (x / m) = x := by field_simp
  have hf0 : m * (⌊x / m⌋ : ℝ) ≤ x := by nlinarith [Int.floor_le (x / m)]
  have hf1 : x < m * (⌊x / m⌋ : ℝ) + m := by nlinarith [Int.lt_floor_add_one (x / m)]
  rcases le_or_lt 0 (x / m) with hp | hp
  · rw [normalizeR, ftruncR_eq_floor hp, if_neg (by linarith)]
    exact ⟨by linarith, by linarith⟩
  · rw [normalizeR, ftruncR_eq_ceil hp]
    have hcle : x ≤ m * (⌈x / m⌉ : ℝ) := by nlinarith [Int.le_ceil (x / m)]
    have hcgt : m * (⌈x / m⌉ : ℝ) < x + m := by nlinarith [Int.ceil_lt_add_one (x / m)]
    split_ifs with hneg
    · exact ⟨by linarith, by linarith⟩
    · exact ⟨by linarith, by linarith⟩

theorem normalizeR_eq_self {x m : ℝ} (h0 : 0 ≤ x) (hxm : x < m) : normalizeR x m = x := by
  have hm : 0 < m := lt_of_le_of_lt h0 hxm
  have hp : 0 ≤ x / m := div_nonneg h0 hm.le
  have hlt : x / m < 1 := (div_lt_one hm).2 hxm
  have hfl : ⌊x / m⌋ = 0 := Int.floor_eq_zero_iff.2 ⟨hp, hlt⟩
  rw [normalizeR, ftruncR_eq_floor hp, hfl, Int.cast_zero, mul_zero, sub_zero,
    if_neg (not_lt.2 h0)]

theorem sunG_mem (jd : ℝ) : 0 ≤ sunG jd ∧ sunG jd < 360 := normalizeR_mem (by norm_num)

theorem sunQ_mem (jd : ℝ) : 0 ≤ sunQ jd ∧ sunQ jd < 360 := normalizeR_mem (by norm_num)

theorem sunL_mem (jd : ℝ) : 0 ≤ sunL jd ∧ sunL jd < 360 := normalizeR_mem (by norm_num)

theorem sunRa_mem (jd : ℝ) : 0 ≤ sunRa jd ∧ sunRa jd < 24 := normalizeR_mem (by norm_num)

theorem sunEqt_bounds (jd : ℝ) : -24 < sunEqt jd ∧ sunEqt jd < 24 := by
  obtain ⟨hq0, hq1⟩ := sunQ_mem jd
  obtain ⟨hr0, hr1⟩ := sunRa_mem jd
  unfold sunEqt
  constructor <;> [linarith; linarith]

/-! ## C5 -/


theorem cfgFarLng_zenith : 228 < cfgFarLng.zenithHour ∧ cfgFarLng.zenithHour < 276 := by
  obtain ⟨h1, h2⟩ := sunEqt_bounds (2451544.5 : ℝ)
  unfold PrayerTimes.zenithHour zenith sun_coords cfgFarLng
  norm_num
  constructor <;> linarith

/-- C5 counterexample: the fractional-hour result of the dhuhr query at the
far-longitude configuration reaches hour2time far outside [0, 24): the code
never normalizes hour results (only ra is normalized). -/
theorem hour_unnormalized_counterexample :
    ¬(0 ≤ PrayerTimes.dhuhrHour cfgFarLng ∧ PrayerTimes.dhuhrHour cfgFarLng < 24) := by
  rintro ⟨_, h⟩
  have := cfgFarLng_zenith.1
  unfold PrayerTimes.dhuhrHour at h
  linarith

/-- C5 amended: the angle quantities g, q, l are normalized into [0, 360) and
the right ascension into [0, 24) inside the solar model, but the fractional
hour handed to hour2time is not normalized (see the counterexample). -/
theorem angles_normalized :
    ∀ jd : ℝ, (0 ≤ sunG jd ∧ sunG jd < 360) ∧ (0 ≤ sunQ jd ∧ sunQ jd < 360) ∧
      (0 ≤ sunL jd ∧ sunL jd < 360) ∧ (0 ≤ sunRa jd ∧ sunRa jd < 24) :=
  fun jd => ⟨sunG_mem jd, sunQ_mem jd, sunL_mem jd, sunRa_mem jd⟩

/-! ## C3 -/

theorem hour2timeCore_of_big {h0 : ℕ} (m0 s0 : ℕ) (r : Bool) (hh : 25 ≤ h0) :
    hour2timeCore h0 m0 s0 r = none := by
  simp only [hour2timeCore, fromHmsOpt]
  split_ifs <;> first | rfl | omega

theorem hour2timeF_of_big {x : ℝ} (h1 : 228 < x) (h2 : x < 276) :
    hour2timeF (some x) true = none := by
  have hx0 : (0 : ℝ) ≤ x := by linarith
  have hfl1 : (228 : ℤ) ≤ ⌊x⌋ := Int.le_floor.2 (by exact_mod_cast h1.le)
  have hfl2 : ⌊x⌋ < 276 := Int.floor_lt.2 (by exact_mod_cast h2)
  have hcast : castU32R (ftruncR x) = ⌊x⌋.toNat := by
    rw [ftruncR_eq_floor hx0, castU32R]
    rw [if_neg (not_lt.2 (by exact_mod_cast (by omega : (0 : ℤ) ≤ ⌊x⌋))), Int.floor_intCast]
    exact min_eq_right (by omega)
  show hour2timeCore (hourMinSecR x).1 (hourMinSecR x).2.1 (hourMinSecR x).2.2 true = none
  have hfst : (hourMinSecR x).1 = ⌊x⌋.toNat := by
    simp only [hourMinSecR]
    exact hcast
  rw [hfst]
  exact hour2timeCore_of_big _ _ true (by omega)

/-- C3 counterexample: at the far-longitude configuration the dhuhr hour is
about 252, hour2time cannot build a NaiveTime from it, and the query panics
through expect (modelled by none) instead of returning an error value. -/
theorem query_panics_counterexample : PrayerTimes.dhuhr cfgFarLng = none := by
  obtain ⟨h1, h2⟩ := cfgFarLng_zenith
  exact hour2timeF_of_big h1 h2

/-- C3 amended: hour2time itself surfaces the failure as a recoverable error
value (none from the conversion), but the timing query unwraps it with expect
and aborts; at the far-longitude configuration the conversion fails and the
dhuhr query therefore panics. -/
theorem query_panic_amended :
    hour2timeF (some cfgFarLng.zenithHour) true = none ∧
      (∀ p : PrayerTimes, PrayerTimes.dhuhr p = hour2timeF (some p.zenithHour) true) := by
  obtain ⟨h1, h2⟩ := cfgFarLng_zenith
  exact ⟨hour2timeF_of_big h1 h2, fun p => rfl⟩

/-! ## Trigonometric bound toolkit -/

theorem sin_le_arg {x : ℝ} (h : 0 ≤ x) : Real.sin x ≤ x := by
  rcases eq_or_lt_of_le h with h0 | h0
  · rw [← h0]
    simp
  · exact (Real.sin_lt h0).le

theorem deg2rad_nonneg {a : ℝ} (h : 0 ≤ a) : 0 ≤ deg2rad a :=
  mul_nonneg h (by positivity)

theorem deg2rad_le_bound {a c : ℝ} (h0 : 0 ≤ a) (hc : a * 3.141593 / 180 ≤ c) :
    deg2rad a ≤ c := by
  unfold deg2rad
  nlinarith [Real.pi_lt_d6]

theorem deg2rad_ge_bound {a c : ℝ} (h0 : 0 ≤ a) (hc : c ≤ a * 3.141592 / 180) :
    c ≤ deg2rad a := by
  unfold deg2rad
  nlinarith [Real.pi_gt_d6]

theorem dsin_le_bound {a c : ℝ} (h0 : 0 ≤ a) (hc : a * 3.141593 / 180 ≤ c) : deg.sin a ≤ c :=
  le_trans (sin_le_arg (deg2rad_nonneg h0)) (deg2rad_le_bound h0 hc)

theorem dsin_nonneg {a : ℝ} (h0 : 0 ≤ a) (h1 : a ≤ 180) : 0 ≤ deg.sin a := by
  apply Real.sin_nonneg_of_nonneg_of_le_pi (deg2rad_nonneg h0)
  unfold deg2rad
  nlinarith [Real.pi_pos]

theorem dsin_pos {a : ℝ} (h0 : 0 < a) (h1 : a < 180) : 0 < deg.sin a := by
  apply Real.sin_pos_of_pos_of_lt_pi
  · exact mul_pos h0 (by positivity)
  · unfold deg2rad
    nlinarith [Real.pi_pos]

theorem dsin_lt_dsin {a b : ℝ} (h0 : 0 ≤ a) (hab : a < b) (hb : b ≤ 90) :
    deg.sin a < deg.sin b := by
  have hpos : (0 : ℝ) < Real.pi / 180 := by positivity
  have hmem1 : deg2rad a ∈ Set.Icc (-(Real.pi / 2)) (Real.pi / 2) := by
    constructor
    · have := deg2rad_nonneg h0
      nlinarith [Real.pi_pos]
    · unfold deg2rad
      nlinarith [Real.pi_pos]
  have hmem2 : deg2rad b ∈ Set.Icc (-(Real.pi / 2)) (Real.pi / 2) := by
    constructor
    · have : 0 ≤ deg2rad b := deg2rad_nonneg (by linarith)
      nlinarith [Real.pi_pos]
    · unfold deg2rad
      nlinarith [Real.pi_pos]
  exact Real.strictMonoOn_sin hmem1 hmem2 (mul_lt_mul_of_pos_right hab hpos)

theorem deg2rad_rad2deg (x : ℝ) : deg2rad (rad2deg x) = x := by
  unfold deg2rad rad2deg
  field_simp

theorem sunU_mem_Icc (jd : ℝ) : -1 ≤ sunU jd ∧ sunU jd ≤ 1 := by
  unfold sunU deg.sin
  constructor <;>
    nlinarith [Real.neg_one_le_sin (deg2rad (sunE jd)), Real.sin_le_one (deg2rad (sunE jd)),
      Real.neg_one_le_sin (deg2rad (sunL jd)), Real.sin_le_one (deg2rad (sunL jd)),
      sq_nonneg (Real.sin (deg2rad (sunE jd)) - Real.sin (deg2rad (sunL jd))),
      sq_nonneg (Real.sin (deg2rad (sunE jd)) + Real.sin (deg2rad (sunL jd)))]

theorem dsin_sunDecl (jd : ℝ) : deg.sin (sunDecl jd) = sunU jd := by
  obtain ⟨h1, h2⟩ := sunU_mem_Icc jd
  unfold sunDecl deg.asin deg.sin
  rw [deg2rad_rad2deg]
  exact Real.sin_arcsin h1 h2

theorem dcos_sunDecl (jd : ℝ) : deg.cos (sunDecl jd) = Real.sqrt (1 - sunU jd ^ 2) := by
  unfold sunDecl deg.asin deg.cos
  rw [deg2rad_rad2deg]
  exact Real.cos_arcsin _

theorem deg2rad_sunDecl (jd : ℝ) : deg2rad (sunDecl jd) = Real.arcsin (sunU jd) := by
  unfold sunDecl deg.asin
  exact deg2rad_rad2deg _

theorem dacos_lt_dacos {x y : ℝ} (h1 : -1 ≤ x) (hxy : x < y) (h2 : y ≤ 1) :
    deg.acos y < deg.acos x := by
  unfold deg.acos rad2deg
  have harc : Real.arccos y < Real.arccos x :=
    Real.strictAntiOn_arccos ⟨h1, by linarith⟩ ⟨by linarith, h2⟩ hxy
  have hpos : (0 : ℝ) < 180 / Real.pi := by positivity
  exact mul_lt_mul_of_pos_right harc hpos

theorem dacos_pos {x : ℝ} (h : x < 1) : 0 < deg.acos x := by
  unfold deg.acos rad2deg
  have h1 := Real.arccos_pos.2 h
  have hpos : (0 : ℝ) < 180 / Real.pi := by positivity
  exact mul_pos h1 hpos

/-! ## Numeric facts at jd = 2451544.5 (2000-01-01) -/

theorem sunE_jd0 : sunE 2451544.5 = 23.43900018 := by
  unfold sunE sunN
  norm_num

theorem sunQ_jd0 : sunQ 2451544.5 = 279.96617632 := by
  unfold sunQ sunN deg.normalize_angle
  rw [show (280.459 : ℝ) + 0.98564736 * (2451544.5 - 2451545) = 279.96617632 by norm_num]
  exact normalizeR_eq_self (by norm_num) (by norm_num)

theorem sunL_jd0_mem : 278.031 ≤ sunL 2451544.5 ∧ sunL 2451544.5 ≤ 281.902 := by
  have hq := sunQ_jd0
  have hg1 : -1 ≤ deg.sin (sunG 2451544.5) := Real.neg_one_le_sin _
  have hg2 : deg.sin (sunG 2451544.5) ≤ 1 := Real.sin_le_one _
  have hg3 : -1 ≤ deg.sin (2 * sunG 2451544.5) := Real.neg_one_le_sin _
  have hg4 : deg.sin (2 * sunG 2451544.5) ≤ 1 := Real.sin_le_one _
  unfold sunL deg.normalize_angle
  rw [normalizeR_eq_self (by rw [hq]; linarith) (by rw [hq]; linarith)]
  rw [hq]
  constructor <;> linarith

theorem sinE_jd0_mem :
    0.3919 ≤ deg.sin (sunE 2451544.5) ∧ deg.sin (sunE 2451544.5) ≤ 0.40909 := by
  rw [sunE_jd0]
  have ht1 : (0.4090876 : ℝ) ≤ deg2rad 23.43900018 :=
    deg2rad_ge_bound (by norm_num) (by norm_num)
  have ht2 : deg2rad (23.43900018 : ℝ) ≤ 0.4090878 :=
    deg2rad_le_bound (by norm_num) (by norm_num)
  have hcube : deg2rad (23.43900018 : ℝ) - deg2rad (23.43900018 : ℝ) ^ 3 / 4 <
      Real.sin (deg2rad 23.43900018) :=
    Real.sin_gt_sub_cube (by linarith) (by linarith)
  have ht3 : deg2rad (23.43900018 : ℝ) ^ 3 ≤ (0.4090878 : ℝ) ^ 3 :=
    pow_le_pow_left₀ (by linarith) ht2 3
  constructor
  · show (0.3919 : ℝ) ≤ Real.sin (deg2rad 23.43900018)
    nlinarith
  · show Real.sin (deg2rad (23.43900018 : ℝ)) ≤ 0.40909
    have := sin_le_arg (show (0 : ℝ) ≤ deg2rad 23.43900018 by linarith)
    linarith

theorem sinL_jd0_mem :
    -1 ≤ deg.sin (sunL 2451544.5) ∧ deg.sin (sunL 2451544.5) ≤ -0.9784 := by
  obtain ⟨hl1, hl2⟩ := sunL_jd0_mem
  refine ⟨Real.neg_one_le_sin _, ?_⟩
  have hsplit : deg2rad (sunL 2451544.5) =
      deg2rad (sunL 2451544.5 - 270) + Real.pi / 2 + Real.pi := by
    unfold deg2rad
    ring
  have hw1 : (0 : ℝ) ≤ sunL 2451544.5 - 270 := by linarith
  have hw2 : deg2rad (sunL 2451544.5 - 270) ≤ 0.20773 :=
    deg2rad_le_bound hw1 (by nlinarith)
  have hw0 : 0 ≤ deg2rad (sunL 2451544.5 - 270) := deg2rad_nonneg hw1
  show Real.sin (deg2rad (sunL 2451544.5)) ≤ -0.9784
  rw [hsplit, Real.sin_add_pi, Real.sin_add_pi_div_two]
  have hcos : 1 - deg2rad (sunL 2451544.5 - 270) ^ 2 / 2 ≤
      Real.cos (deg2rad (sunL 2451544.5 - 270)) := Real.one_sub_sq_div_two_le_cos
  nlinarith

theorem sunU_jd0_mem : -0.4091 ≤ sunU 2451544.5 ∧ sunU 2451544.5 ≤ -0.3834 := by
  obtain ⟨he1, he2⟩ := sinE_jd0_mem
  obtain ⟨hl1, hl2⟩ := sinL_jd0_mem
  unfold sunU
  constructor <;> nlinarith

theorem cosDecl_jd0_mem :
    0.912 ≤ deg.cos (sunDecl 2451544.5) ∧ deg.cos (sunDecl 2451544.5) ≤ 1 := by
  obtain ⟨h1, h2⟩ := sunU_jd0_mem
  rw [dcos_sunDecl]
  constructor
  · rw [Real.le_sqrt (by norm_num) (by nlinarith)]
    nlinarith
  · calc Real.sqrt (1 - sunU 2451544.5 ^ 2) ≤ Real.sqrt 1 :=
        Real.sqrt_le_sqrt (by nlinarith)
    _ = 1 := Real.sqrt_one

/-! ## C9 -/

theorem dsin_zero : deg.sin 0 = 0 := by
  unfold deg.sin deg2rad
  simp

theorem dcos_zero : deg.cos 0 = 1 := by
  unfold deg.cos deg2rad
  simp

theorem horizonArg_lat0 (a jd : ℝ) :
    horizonArg a jd 0 = -deg.sin a / deg.cos (sunDecl jd) := by
  unfold horizonArg
  rw [dsin_zero, dcos_zero, zero_mul, sub_zero, one_mul]


/-- C9 counterexample: ISNA is angle-based and Makkah duration-based, all
other configuration fields equal, yet the dawn (fajr) fractional hours differ
(the two authorities carry different fajr angles, 15 and 18.5 degrees), so
switching the night criterion does not change only the night result. -/
theorem authority_change_not_isha_only :
    (Authority.ISNA.isha_param).isAngle = true ∧
    (Authority.Makkah.isha_param).isAngle = false ∧
    (cfgEquator.with_authority .Makkah).fajrHour < (cfgEquator.with_authority .ISNA).fajrHour := by
  refine ⟨rfl, rfl, ?_⟩
  obtain ⟨hc1, hc2⟩ := cosDecl_jd0_mem
  have hcpos : (0 : ℝ) < deg.cos (sunDecl 2451544.5) := by linarith
  have hsin : deg.sin 15 < deg.sin 18.5 := dsin_lt_dsin (by norm_num) (by norm_num) (by norm_num)
  have hsin15 : 0 < deg.sin 15 := dsin_pos (by norm_num) (by norm_num)
  have h185 : deg.sin 18.5 ≤ 0.323 := dsin_le_bound (by norm_num) (by norm_num)
  have harg : horizonArg 18.5 2451544.5 0 < horizonArg 15 2451544.5 0 := by
    rw [horizonArg_lat0, horizonArg_lat0]
    exact (div_lt_div_iff_of_pos_right hcpos).2 (by linarith)
  have hm1 : (-1 : ℝ) ≤ horizonArg 18.5 2451544.5 0 := by
    rw [horizonArg_lat0, neg_div]
    have : deg.sin 18.5 / deg.cos (sunDecl 2451544.5) ≤ 1 := (div_le_one hcpos).2 (by linarith)
    linarith
  have hm2 : horizonArg 15 2451544.5 0 ≤ 1 := by
    rw [horizonArg_lat0, neg_div]
    have : 0 ≤ deg.sin 15 / deg.cos (sunDecl 2451544.5) := div_nonneg hsin15.le hcpos.le
    linarith
  have hacos := dacos_lt_dacos hm1 harg hm2
  have e1 : (cfgEquator.with_authority .Makkah).fajrHour =
      zenith 2451544.5 0 0 - 1 / 15 * deg.acos (horizonArg 18.5 2451544.5 0) := rfl
  have e2 : (cfgEquator.with_authority .ISNA).fajrHour =
      zenith 2451544.5 0 0 - 1 / 15 * deg.acos (horizonArg 15 2451544.5 0) := rfl
  rw [e1, e2]
  linarith

/-- C9 amended: changing the calculation authority (in particular its night
criterion) never changes the sunrise or the sunset (maghrib) hours, which do
not read the authority at all; the isha hour changes, and the fajr hour also
changes because every angle-based authority carries a fajr angle different
from the duration-based one (see the counterexample). -/
theorem authority_frame_sunrise_maghrib :
    ∀ (p : PrayerTimes) (a1 a2 : Authority),
      (p.with_authority a1).sunriseHour = (p.with_authority a2).sunriseHour ∧
      (p.with_authority a1).maghribHour = (p.with_authority a2).maghribHour :=
  fun _ _ _ => ⟨rfl, rfl⟩

/-! ## C4 -/

theorem dsin_180 : deg.sin 180 = 0 := by
  unfold deg.sin
  rw [show deg2rad (180 : ℝ) = Real.pi by unfold deg2rad; ring]
  exact Real.sin_pi

theorem dcos_180 : deg.cos 180 = -1 := by
  unfold deg.cos
  rw [show deg2rad (180 : ℝ) = Real.pi by unfold deg2rad; ring]
  exact Real.cos_pi

theorem horizonArg_lat180 (a jd : ℝ) :
    horizonArg a jd 180 = deg.sin a / deg.cos (sunDecl jd) := by
  unfold horizonArg
  rw [dsin_180, dcos_180, zero_mul, sub_zero, neg_one_mul, neg_div_neg_eq]

theorem shadowArg_lat0 (L jd : ℝ) :
    shadowArg L jd 0 =
      deg.sin (deg.acot (L + deg.tan (0 - sunDecl jd))) / deg.cos (sunDecl jd) := by
  unfold shadowArg
  rw [dsin_zero, dcos_zero, zero_mul, sub_zero, one_mul]

theorem shadowArg_lat180 (L jd : ℝ) :
    shadowArg L jd 180 =
      -(deg.sin (deg.acot (L + deg.tan (180 - sunDecl jd))) / deg.cos (sunDecl jd)) := by
  unfold shadowArg
  rw [dsin_180, dcos_180, zero_mul, sub_zero, neg_one_mul, div_neg]

theorem dtan_zero_sub_decl (jd : ℝ) :
    deg.tan (0 - sunDecl jd) = -(sunU jd / Real.sqrt (1 - sunU jd ^ 2)) := by
  unfold deg.tan
  rw [show deg2rad (0 - sunDecl jd) = -(deg2rad (sunDecl jd)) by unfold deg2rad; ring]
  rw [Real.tan_neg, deg2rad_sunDecl, Real.tan_arcsin]

theorem dtan_pi_sub_decl (jd : ℝ) :
    deg.tan (180 - sunDecl jd) = -(sunU jd / Real.sqrt (1 - sunU jd ^ 2)) := by
  unfold deg.tan
  rw [show deg2rad (180 - sunDecl jd) = Real.pi - deg2rad (sunDecl jd) by unfold deg2rad; ring]
  rw [Real.tan_pi_sub, deg2rad_sunDecl, Real.tan_arcsin]

theorem dsin_acot (v : ℝ) : deg.sin (deg.acot v) = (1 / v) / Real.sqrt (1 + (1 / v) ^ 2) := by
  unfold deg.sin deg.acot
  rw [deg2rad_rad2deg, Real.sin_arctan]

theorem sqrtU_jd0_mem :
    0.912 ≤ Real.sqrt (1 - sunU 2451544.5 ^ 2) ∧ Real.sqrt (1 - sunU 2451544.5 ^ 2) ≤ 1 := by
  have h := cosDecl_jd0_mem
  rwa [dcos_sunDecl] at h

theorem shadowV_jd0_mem :
    2.3834 ≤ 2 - sunU 2451544.5 / Real.sqrt (1 - sunU 2451544.5 ^ 2) ∧
      2 - sunU 2451544.5 / Real.sqrt (1 - sunU 2451544.5 ^ 2) ≤ 2.4486 := by
  obtain ⟨hu1, hu2⟩ := sunU_jd0_mem
  obtain ⟨hs1, hs2⟩ := sqrtU_jd0_mem
  have hspos : (0 : ℝ) < Real.sqrt (1 - sunU 2451544.5 ^ 2) := by linarith
  constructor
  · have hq : sunU 2451544.5 / Real.sqrt (1 - sunU 2451544.5 ^ 2) ≤ -0.3834 := by
      rw [div_le_iff₀ hspos]
      nlinarith
    linarith
  · have hq : (-0.4486 : ℝ) ≤ sunU 2451544.5 / Real.sqrt (1 - sunU 2451544.5 ^ 2) := by
      rw [le_div_iff₀ hspos]
      nlinarith
    linarith

theorem shadowSin_jd0_mem :
    0 ≤ deg.sin (deg.acot (2 - sunU 2451544.5 / Real.sqrt (1 - sunU 2451544.5 ^ 2))) ∧
      deg.sin (deg.acot (2 - sunU 2451544.5 / Real.sqrt (1 - sunU 2451544.5 ^ 2))) ≤ 0.4196 := by
  obtain ⟨hv1, hv2⟩ := shadowV_jd0_mem
  have hvpos : (0 : ℝ) < 2 - sunU 2451544.5 / Real.sqrt (1 - sunU 2451544.5 ^ 2) := by linarith
  rw [dsin_acot]
  have hy0 : 0 ≤ 1 / (2 - sunU 2451544.5 / Real.sqrt (1 - sunU 2451544.5 ^ 2)) :=
    le_of_lt (by positivity)
  have hy1 : 1 / (2 - sunU 2451544.5 / Real.sqrt (1 - sunU 2451544.5 ^ 2)) ≤ 0.4196 := by
    rw [div_le_iff₀ hvpos]
    nlinarith
  have hsq : (1 : ℝ) ≤
      Real.sqrt (1 + (1 / (2 - sunU 2451544.5 / Real.sqrt (1 - sunU 2451544.5 ^ 2))) ^ 2) :=
    (Real.le_sqrt (by norm_num) (by positivity)).2
      (by nlinarith [sq_nonneg (1 / (2 - sunU 2451544.5 / Real.sqrt (1 - sunU 2451544.5 ^ 2)))])
  constructor
  · exact div_nonneg hy0 (Real.sqrt_nonneg _)
  · calc 1 / (2 - sunU 2451544.5 / Real.sqrt (1 - sunU 2451544.5 ^ 2)) /
        Real.sqrt (1 + (1 / (2 - sunU 2451544.5 / Real.sqrt (1 - sunU 2451544.5 ^ 2))) ^ 2) ≤
        1 / (2 - sunU 2451544.5 / Real.sqrt (1 - sunU 2451544.5 ^ 2)) :=
        div_le_self hy0 hsq
    _ ≤ 0.4196 := hy1


/-- C4 counterexample: at latitude 180 (the core performs no range
validation) every involved inverse-cosine argument lies in [-1, 1], yet the
sunrise hour is strictly earlier than the fajr hour — dawn does not precede
sunrise. -/
theorem order_violation_counterexample :
    (-1 ≤ horizonArg (Authority.ISNA.fajr_angle) 2451544.5 180 ∧
      horizonArg (Authority.ISNA.fajr_angle) 2451544.5 180 ≤ 1) ∧
    (-1 ≤ horizonArg 0.833 2451544.5 180 ∧ horizonArg 0.833 2451544.5 180 ≤ 1) ∧
    (-1 ≤ shadowArg (School.Hanafi.shadow_length) 2451544.5 180 ∧
      shadowArg (School.Hanafi.shadow_length) 2451544.5 180 ≤ 1) ∧
    cfgLat180.sunriseHour < cfgLat180.fajrHour := by
  obtain ⟨hc1, hc2⟩ := cosDecl_jd0_mem
  have hcpos : (0 : ℝ) < deg.cos (sunDecl 2451544.5) := by linarith
  have h15a : deg.sin 15 ≤ 0.2618 := dsin_le_bound (by norm_num) (by norm_num)
  have h15p : 0 < deg.sin 15 := dsin_pos (by norm_num) (by norm_num)
  have h833a : deg.sin 0.833 ≤ 0.01454 := dsin_le_bound (by norm_num) (by norm_num)
  have h833p : 0 < deg.sin 0.833 := dsin_pos (by norm_num) (by norm_num)
  have h833lt : deg.sin 0.833 < deg.sin 15 := dsin_lt_dsin (by norm_num) (by norm_num) (by norm_num)
  have hfa : Authority.ISNA.fajr_angle = (15 : ℝ) := rfl
  have hsh : School.Hanafi.shadow_length = (2 : ℝ) := rfl
  rw [hfa, hsh, horizonArg_lat180, horizonArg_lat180, shadowArg_lat180, dtan_pi_sub_decl,
    show (2 : ℝ) + -(sunU 2451544.5 / Real.sqrt (1 - sunU 2451544.5 ^ 2)) =
      2 - sunU 2451544.5 / Real.sqrt (1 - sunU 2451544.5 ^ 2) by ring]
  obtain ⟨hsa0, hsa1⟩ := shadowSin_jd0_mem
  refine ⟨⟨?_, ?_⟩, ⟨?_, ?_⟩, ⟨?_, ?_⟩, ?_⟩
  · have : 0 ≤ deg.sin 15 / deg.cos (sunDecl 2451544.5) := div_nonneg h15p.le hcpos.le
    linarith
  · exact (div_le_one hcpos).2 (by linarith)
  · have : 0 ≤ deg.sin 0.833 / deg.cos (sunDecl 2451544.5) := div_nonneg h833p.le hcpos.le
    linarith
  · exact (div_le_one hcpos).2 (by linarith)
  · have : deg.sin (deg.acot (2 - sunU 2451544.5 / Real.sqrt (1 - sunU 2451544.5 ^ 2))) /
        deg.cos (sunDecl 2451544.5) ≤ 1 := (div_le_one hcpos).2 (by linarith)
    linarith
  · have : 0 ≤ deg.sin (deg.acot (2 - sunU 2451544.5 / Real.sqrt (1 - sunU 2451544.5 ^ 2))) /
        deg.cos (sunDecl 2451544.5) := div_nonneg hsa0 hcpos.le
    linarith
  · have harg : horizonArg 0.833 2451544.5 180 < horizonArg 15 2451544.5 180 := by
      rw [horizonArg_lat180, horizonArg_lat180]
      exact (div_lt_div_iff_of_pos_right hcpos).2 h833lt
    have hm1 : (-1 : ℝ) ≤ horizonArg 0.833 2451544.5 180 := by
      rw [horizonArg_lat180]
      have : 0 ≤ deg.sin 0.833 / deg.cos (sunDecl 2451544.5) := div_nonneg h833p.le hcpos.le
      linarith
    have hm2 : horizonArg 15 2451544.5 180 ≤ 1 := by
      rw [horizonArg_lat180]
      exact (div_le_one hcpos).2 (by linarith)
    have hacos := dacos_lt_dacos hm1 harg hm2
    have e1 : cfgLat180.sunriseHour =
        zenith 2451544.5 0 0 - 1 / 15 * deg.acos (horizonArg 0.833 2451544.5 180) := rfl
    have e2 : cfgLat180.fajrHour =
        zenith 2451544.5 0 0 - 1 / 15 * deg.acos (horizonArg 15 2451544.5 180) := rfl
    rw [e1, e2]
    linarith

theorem sin_mem_Ioo_of {x : ℝ} (h1 : -(Real.pi / 2) < x) (h2 : x < Real.pi / 2) :
    -1 < Real.sin x ∧ Real.sin x < 1 := by
  have hmem : x ∈ Set.Icc (-(Real.pi / 2)) (Real.pi / 2) := ⟨h1.le, h2.le⟩
  constructor
  · have h := Real.strictMonoOn_sin ⟨le_rfl, by linarith [Real.pi_pos]⟩ hmem h1
    rw [Real.sin_neg, Real.sin_pi_div_two] at h
    linarith
  · have h := Real.strictMonoOn_sin hmem ⟨by linarith [Real.pi_pos], le_rfl⟩ h2
    rw [Real.sin_pi_div_two] at h
    linarith

theorem sunU_sq_lt_one {jd : ℝ} (hjd : |jd - 2451545| ≤ 100000000) : sunU jd ^ 2 < 1 := by
  rw [abs_le] at hjd
  have he : -12.561 ≤ sunE jd ∧ sunE jd ≤ 59.439 := by
    unfold sunE sunN
    constructor <;> nlinarith
  have ht1 : -(Real.pi / 2) < deg2rad (sunE jd) := by
    unfold deg2rad
    nlinarith [Real.pi_gt_d6, Real.pi_lt_d6]
  have ht2 : deg2rad (sunE jd) < Real.pi / 2 := by
    unfold deg2rad
    nlinarith [Real.pi_gt_d6, Real.pi_lt_d6]
  obtain ⟨hs1, hs2⟩ := sin_mem_Ioo_of ht1 ht2
  have hl1 := Real.neg_one_le_sin (deg2rad (sunL jd))
  have hl2 := Real.sin_le_one (deg2rad (sunL jd))
  unfold sunU deg.sin
  have h1sq : Real.sin (deg2rad (sunE jd)) ^ 2 < 1 := by nlinarith
  have h2sq : Real.sin (deg2rad (sunL jd)) ^ 2 ≤ 1 := by nlinarith
  calc (Real.sin (deg2rad (sunE jd)) * Real.sin (deg2rad (sunL jd))) ^ 2 =
      Real.sin (deg2rad (sunE jd)) ^ 2 * Real.sin (deg2rad (sunL jd)) ^ 2 := by ring
    _ ≤ Real.sin (deg2rad (sunE jd)) ^ 2 * 1 := by
        nlinarith [sq_nonneg (Real.sin (deg2rad (sunE jd)))]
    _ < 1 := by linarith

theorem dcosDecl_pos {jd : ℝ} (hjd : |jd - 2451545| ≤ 100000000) :
    0 < deg.cos (sunDecl jd) := by
  rw [dcos_sunDecl]
  exact Real.sqrt_pos.2 (by nlinarith [sunU_sq_lt_one hjd])

theorem dcosLat_pos {lat : ℝ} (h1 : -90 < lat) (h2 : lat < 90) : 0 < deg.cos lat := by
  apply Real.cos_pos_of_mem_Ioo
  constructor
  · unfold deg2rad
    nlinarith [Real.pi_pos]
  · unfold deg2rad
    nlinarith [Real.pi_pos]

/-- C4 amended: for a date within the chrono-representable range, a latitude
strictly between -90 and 90, the fajr argument at least -1, the shadow
argument at least -1, and the sunrise and shadow arguments strictly below 1
(so every involved acos argument is inside [-1, 1] and each event exists),
the fractional hours satisfy fajr < sunrise < dhuhr < asr. -/
theorem order_amended (p : PrayerTimes)
    (hjd : |p.jd - 2451545| ≤ 100000000)
    (hlat1 : -90 < p.lat) (hlat2 : p.lat < 90)
    (hf : -1 ≤ horizonArg p.auth.fajr_angle p.jd p.lat)
    (hs : horizonArg 0.833 p.jd p.lat < 1)
    (_ha0 : -1 ≤ shadowArg p.school.shadow_length p.jd p.lat)
    (ha : shadowArg p.school.shadow_length p.jd p.lat < 1) :
    p.fajrHour < p.sunriseHour ∧ p.sunriseHour < p.dhuhrHour ∧ p.dhuhrHour < p.asrHour := by
  have hden : 0 < deg.cos p.lat * deg.cos (sunDecl p.jd) :=
    mul_pos (dcosLat_pos hlat1 hlat2) (dcosDecl_pos hjd)
  have hsin : deg.sin 0.833 < deg.sin p.auth.fajr_angle := by
    cases p.auth <;>
      exact dsin_lt_dsin (by norm_num) (by norm_num [Authority.fajr_angle])
        (by norm_num [Authority.fajr_angle])
  have harg : horizonArg p.auth.fajr_angle p.jd p.lat < horizonArg 0.833 p.jd p.lat := by
    unfold horizonArg
    exact (div_lt_div_iff_of_pos_right hden).2 (by linarith)
  have hacos := dacos_lt_dacos hf harg hs.le
  have hsacos := dacos_pos hs
  have haacos := dacos_pos ha
  have e1 : p.fajrHour =
      p.zenithHour - 1 / 15 * deg.acos (horizonArg p.auth.fajr_angle p.jd p.lat) := rfl
  have e2 : p.sunriseHour =
      p.zenithHour - 1 / 15 * deg.acos (horizonArg 0.833 p.jd p.lat) := rfl
  have e3 : p.dhuhrHour = p.zenithHour := rfl
  have e4 : p.asrHour =
      p.zenithHour + 1 / 15 * deg.acos (shadowArg p.school.shadow_length p.jd p.lat) := rfl
  rw [e1, e2, e3, e4]
  refine ⟨by linarith, by linarith, by linarith⟩

/-- Witness for C4 amended at the equatorial configuration on 2000-01-01. -/
theorem order_amended_witness :
    cfgEquator.fajrHour < cfgEquator.sunriseHour ∧
      cfgEquator.sunriseHour < cfgEquator.dhuhrHour ∧
      cfgEquator.dhuhrHour < cfgEquator.asrHour := by
  obtain ⟨hc1, hc2⟩ := cosDecl_jd0_mem
  have hcpos : (0 : ℝ) < deg.cos (sunDecl 2451544.5) := by linarith
  have h15a : deg.sin 15 ≤ 0.2618 := dsin_le_bound (by norm_num) (by norm_num)
  have h833p : 0 < deg.sin 0.833 := dsin_pos (by norm_num) (by norm_num)
  obtain ⟨hsa0, hsa1⟩ := shadowSin_jd0_mem
  apply order_amended cfgEquator
  · show |(2451544.5 : ℝ) - 2451545| ≤ 100000000
    rw [abs_le]
    constructor <;> norm_num
  · show (-90 : ℝ) < 0
    norm_num
  · show (0 : ℝ) < 90
    norm_num
  · show (-1 : ℝ) ≤ horizonArg (Authority.ISNA.fajr_angle) 2451544.5 0
    have hfa : Authority.ISNA.fajr_angle = (15 : ℝ) := rfl
    rw [hfa, horizonArg_lat0, neg_div]
    have : deg.sin 15 / deg.cos (sunDecl 2451544.5) ≤ 1 := (div_le_one hcpos).2 (by linarith)
    linarith
  · show horizonArg 0.833 2451544.5 0 < 1
    rw [horizonArg_lat0, neg_div]
    have : 0 ≤ deg.sin 0.833 / deg.cos (sunDecl 2451544.5) := div_nonneg h833p.le hcpos.le
    linarith
  · show (-1 : ℝ) ≤ shadowArg (School.Hanafi.shadow_length) 2451544.5 0
    have hsh : School.Hanafi.shadow_length = (2 : ℝ) := rfl
    rw [hsh, shadowArg_lat0, dtan_zero_sub_decl,
      show (2 : ℝ) + -(sunU 2451544.5 / Real.sqrt (1 - sunU 2451544.5 ^ 2)) =
        2 - sunU 2451544.5 / Real.sqrt (1 - sunU 2451544.5 ^ 2) by ring]
    exact le_trans (by norm_num) (div_nonneg hsa0 hcpos.le)
  · show shadowArg (School.Hanafi.shadow_length) 2451544.5 0 < 1
    have hsh : School.Hanafi.shadow_length = (2 : ℝ) := rfl
    rw [hsh, shadowArg_lat0, dtan_zero_sub_decl,
      show (2 : ℝ) + -(sunU 2451544.5 / Real.sqrt (1 - sunU 2451544.5 ^ 2)) =
        2 - sunU 2451544.5 / Real.sqrt (1 - sunU 2451544.5 ^ 2) by ring]
    exact (div_lt_one hcpos).2 (by linarith)

/-! ## C2 -/

theorem dsin899_ge : 0.9999 ≤ deg.sin 89.9 := by
  unfold deg.sin
  rw [show deg2rad (89.9 : ℝ) = Real.pi / 2 - deg2rad 0.1 by unfold deg2rad; ring,
    Real.sin_pi_div_two_sub]
  have ht : deg2rad (0.1 : ℝ) ≤ 0.0017454 := deg2rad_le_bound (by norm_num) (by norm_num)
  have ht0 : 0 ≤ deg2rad (0.1 : ℝ) := deg2rad_nonneg (by norm_num)
  have hcos := Real.one_sub_sq_div_two_le_cos (x := deg2rad (0.1 : ℝ))
  nlinarith

theorem dcos899_mem : 0 < deg.cos 89.9 ∧ deg.cos 89.9 ≤ 0.0017454 := by
  unfold deg.cos
  rw [show deg2rad (89.9 : ℝ) = Real.pi / 2 - deg2rad 0.1 by unfold deg2rad; ring,
    Real.cos_pi_div_two_sub]
  have ht : deg2rad (0.1 : ℝ) ≤ 0.0017454 := deg2rad_le_bound (by norm_num) (by norm_num)
  constructor
  · apply Real.sin_pos_of_pos_of_lt_pi
    · unfold deg2rad
      positivity
    · nlinarith [Real.pi_gt_d6]
  · exact le_trans (sin_le_arg (deg2rad_nonneg (by norm_num))) ht


theorem polar_fajr_undefined :
    0 < horizonDenom 2451544.5 89.9 ∧ 1 < horizonArg 15 2451544.5 89.9 := by
  obtain ⟨hc1, hc2⟩ := cosDecl_jd0_mem
  obtain ⟨hd1, hd2⟩ := dcos899_mem
  obtain ⟨hu1, hu2⟩ := sunU_jd0_mem
  have h899a := dsin899_ge
  have h899b : deg.sin 89.9 ≤ 1 := Real.sin_le_one _
  have h15a : deg.sin 15 ≤ 0.2618 := dsin_le_bound (by norm_num) (by norm_num)
  have hden : 0 < deg.cos 89.9 * deg.cos (sunDecl 2451544.5) := mul_pos hd1 (by linarith)
  refine ⟨hden, ?_⟩
  unfold horizonArg
  rw [dsin_sunDecl]
  apply (one_lt_div hden).2
  nlinarith [mul_nonneg (sub_nonneg.2 h899a) (neg_nonneg.2 (hu2.trans (by norm_num))),
    mul_le_mul hd2 hc2 (by linarith) (by norm_num)]

/-- C2 counterexample: at the near-polar configuration the fajr acos argument
exceeds 1 (the dawn condition never occurs), yet the fajr query succeeds with
the NaN-derived clock time 00:00:00 instead of an explicit error. -/
theorem nan_clock_counterexample :
    1 < horizonArg (Authority.ISNA.fajr_angle) 2451544.5 89.9 ∧
    PrayerTimes.fajr cfgPolar = some ⟨0, 0, 0⟩ := by
  obtain ⟨hden, harg⟩ := polar_fajr_undefined
  have hfa : Authority.ISNA.fajr_angle = (15 : ℝ) := rfl
  constructor
  · rw [hfa]
    exact harg
  · have e : PrayerTimes.fajr cfgPolar =
        hour2timeF (horizon_hour_angle_f 15 2451544.5 (zenith 2451544.5 0 0) 89.9 .Sunrise)
          true := rfl
    rw [e, horizon_hour_angle_f, if_neg (ne_of_gt hden), if_neg (by rintro ⟨h1, h2⟩; linarith)]
    rfl

/-- C2 amended: when the inverse-cosine argument falls outside [-1, 1] (and
the denominator is nonzero), acos produces NaN, the NaN flows through the
hour arithmetic into hour2time, whose saturating casts turn it into the
successful clock time 00:00:00 — no error is reported. -/
theorem nan_clock_amended (angle jd zen lat : ℝ) (dir : HorizonDirection)
    (hden : horizonDenom jd lat ≠ 0)
    (harg : 1 < horizonArg angle jd lat ∨ horizonArg angle jd lat < -1) :
    hour2timeF (horizon_hour_angle_f angle jd zen lat dir) true = some ⟨0, 0, 0⟩ := by
  rw [horizon_hour_angle_f, if_neg hden,
    if_neg (by rintro ⟨h1, h2⟩; rcases harg with h | h <;> linarith)]
  rfl

/-- Witness for C2 amended at the near-polar configuration. -/
theorem nan_clock_amended_witness :
    hour2timeF (horizon_hour_angle_f 15 2451544.5 (zenith 2451544.5 0 0) 89.9 .Sunrise) true =
      some ⟨0, 0, 0⟩ :=
  nan_clock_amended 15 2451544.5 (zenith 2451544.5 0 0) 89.9 .Sunrise
    (ne_of_gt polar_fajr_undefined.1) (Or.inl polar_fajr_undefined.2)

end Salah
